import Mathlib

/-!
Verification of the easy-fs virtual-filesystem layer (vfs.rs) and the
OS-side inode wrappers (os/src/fs/inode.rs, os/src/syscall/fs.rs).

Shallow embedding notes:
* `DiskInode`, `DirEntry`, the allocator, and the block cache are external
  collaborators of the code under verification; their internals are not in
  the verified sources, so they are modelled from the specification's
  interface description (marked `Modelled from the spec:` below).
* An in-memory `Inode` handle is `{block_id, block_offset}`; the allocator
  contract makes `get_disk_inode_pos` and `get_inode_id` mutually inverse,
  so handles are represented directly by the inode id they locate.
* Machine integers are `Nat`; every place the source casts to `u32`
  (`as u32`) takes `% U32_MOD`.
* Rust `assert!` / `unwrap` aborts are modelled with `Option`: `none`
  means the operation panics.
-/

/-- Modelled from the spec: size in bytes of one fixed-width directory
entry slot (`DIRENT_SZ`, defined in easy-fs `layout.rs`, which is not part
of the verified sources). Only positivity matters to the claims. -/
def DIRENT_SZ : Nat := 32

/-- Modelled from the spec: size in bytes of one storage block
(easy-fs `BLOCK_SZ`, not part of the verified sources). -/
def BLOCK_SZ : Nat := 512

/-- `u32::MAX`, the "no inode" sentinel of the directory wire format. -/
def U32_MAX : Nat := 4294967295

/-- `2^32`, the modulus of `u32` casts. -/
def U32_MOD : Nat := 4294967296

/-- Modelled from the spec: a directory entry `{name, inode_id}`.  The
on-disk form is fixed-width with padding; equality of the `name` field
models the padding-insensitive logical-name comparison `dirent.name()`. -/
structure DirEntry where
  name : String
  inode_id : Nat
deriving DecidableEq, Repr

/-- The tombstone written by `unlink`: `DirEntry::new("", u32::MAX)`. -/
def DirEntry.tomb : DirEntry := ⟨"", U32_MAX⟩

/-- Modelled from the spec: an uninitialized/blank directory entry
(`DirEntry::empty`). -/
def DirEntry.blank : DirEntry := ⟨"", 0⟩

/-- The on-disk inode type tag (file or directory). -/
inductive DiskInodeType where
  | file
  | directory
deriving DecidableEq, Repr

/-- Modelled from the spec: the on-disk inode record (easy-fs `DiskInode`,
not part of the verified sources).  A file inode's content is its byte
list; a directory inode's content is viewed at `DIRENT_SZ` granularity as
a list of entry slots, per the directory wire format.  `blocks` is the
list of data-block ids backing the content; the spec invariant is that
`size` always equals the number of bytes backed by allocated blocks. -/
structure DiskInode where
  ty : DiskInodeType
  bytes : List Nat
  entries : List DirEntry
  blocks : List Nat
deriving DecidableEq, Repr

/-- The byte `size` of a disk inode: content length for a file,
`slot_count * DIRENT_SZ` for a directory. -/
def DiskInode.size (d : DiskInode) : Nat :=
  match d.ty with
  | .file => d.bytes.length
  | .directory => d.entries.length * DIRENT_SZ

/-- `DiskInode::initialize(DiskInodeType::File)`: a fresh empty file. -/
def DiskInode.initFile : DiskInode := ⟨.file, [], [], []⟩

/-- Modelled from the spec: `DiskInode::total_blocks(size)`, the number of
data blocks backing `size` bytes. -/
def totalBlocks (size : Nat) : Nat := (size + BLOCK_SZ - 1) / BLOCK_SZ

/-- Modelled from the spec: `DiskInode::blocks_num_needed(new_size)`, the
number of additional blocks required to reach `new_size` bytes. -/
def DiskInode.blocksNumNeeded (d : DiskInode) (newSize : Nat) : Nat :=
  totalBlocks newSize - totalBlocks d.size

/-- Modelled from the spec: `DiskInode::increase_size(new_size, v)` —
extend the index structures and size field to `new_size`, recording the
freshly allocated block ids.  Newly covered content is unspecified by the
spec; the model fills it with zeros / blank slots (no claim depends on
it). -/
def DiskInode.extendTo (d : DiskInode) (newSize : Nat) (newBlocks : List Nat) : DiskInode :=
  match d.ty with
  | .file =>
      { d with bytes := d.bytes ++ List.replicate (newSize - d.bytes.length) 0,
               blocks := d.blocks ++ newBlocks }
  | .directory =>
      { d with entries := d.entries ++ List.replicate (newSize / DIRENT_SZ - d.entries.length) DirEntry.blank,
               blocks := d.blocks ++ newBlocks }

/-- Modelled from the spec: `DiskInode::clear_size` — reset the inode to
size zero and hand back every data-block id that was backing it. -/
def DiskInode.clearSize (d : DiskInode) : DiskInode × List Nat :=
  ({ d with bytes := [], entries := [], blocks := [] }, d.blocks)

/-- Modelled from the spec: `DiskInode::read_at(offset, buf)` restricted
to file content — the bytes actually transferred, i.e. the slice of the
content from `offset` of length at most `len`. -/
def DiskInode.readBytes (d : DiskInode) (offset len : Nat) : List Nat :=
  (d.bytes.drop offset).take len

/-- Modelled from the spec: `DiskInode::write_at(offset, buf)` restricted
to file content — overwrite in place, never growing past `size`; returns
the updated inode and the number of bytes written. -/
def DiskInode.writeBytes (d : DiskInode) (offset : Nat) (buf : List Nat) : DiskInode × Nat :=
  let n := min buf.length (d.bytes.length - offset)
  ({ d with bytes := d.bytes.take offset ++ buf.take n ++ d.bytes.drop (offset + n) }, n)

/-- The filesystem state seen through the block cache: the inode area
(`inodes`, indexed by inode id — the allocator's
`get_disk_inode_pos`/`get_inode_id` bijection is collapsed), plus the
data-block allocator modelled from the spec as a fresh-id counter
(`alloc_data`) and the list of ids returned through `dealloc_data`. -/
structure FS where
  inodes : List DiskInode
  nextData : Nat
  freedData : List Nat
deriving DecidableEq, Repr

/-- Read the disk inode a handle points at (`read_disk_inode`). -/
def FS.getInode (fs : FS) (i : Nat) : DiskInode :=
  fs.inodes.getD i DiskInode.initFile

/-- Write back the disk inode a handle points at (`modify_disk_inode`). -/
def FS.setInode (fs : FS) (i : Nat) (d : DiskInode) : FS :=
  { fs with inodes := fs.inodes.set i d }

/-- Modelled from the spec: `n` successive calls to
`EasyFileSystem::alloc_data`, returning the fresh block ids. -/
def FS.allocData (fs : FS) (n : Nat) : List Nat × FS :=
  ((List.range n).map (fs.nextData + ·), { fs with nextData := fs.nextData + n })

/-- `Inode::increase_size` (vfs.rs lines 95-110): return unchanged when
`new_size < disk_inode.size`; otherwise allocate
`blocks_num_needed(new_size)` data blocks one at a time and hand them to
the disk inode together with the new size. -/
def increaseSize (fs : FS) (d : DiskInode) (newSize : Nat) : FS × DiskInode :=
  if newSize < d.size then (fs, d)
  else
    let needed := d.blocksNumNeeded newSize
    let p := fs.allocData needed
    (p.2, d.extendTo newSize p.1)

/-- `Inode::find_inode_id` (vfs.rs lines 45-60): scan the slots in order
and return the inode id of the first slot whose name equals `name`, the
sentinel included.  (The source asserts the inode is a directory; the
theorems below restrict to directory inodes accordingly.) -/
def findInodeId (name : String) : List DirEntry → Option Nat
  | [] => none
  | e :: rest => if e.name = name then some e.inode_id else findInodeId name rest

/-- `Inode::find` (vfs.rs lines 62-80): `find_inode_id`, then reject a
missing id or the sentinel `u32::MAX`; otherwise translate through the
allocator and return a handle (represented by the id itself). -/
def Inode.find (fs : FS) (self : Nat) (name : String) : Option Nat :=
  match findInodeId name (fs.getInode self).entries with
  | none => none
  | some id => if id = U32_MAX then none else some id

/-- `Inode::create` (vfs.rs lines 112-158): fail if `find_inode_id`
returns anything; otherwise allocate a fresh inode id, initialize it as a
file, grow the directory by one slot through `increase_size`, write the
new entry at the appended slot, and return a handle to the new inode. -/
def Inode.create (fs : FS) (self : Nat) (name : String) : Option (Nat × FS) :=
  if (findInodeId name (fs.getInode self).entries).isSome then none
  else
    let newInodeId := fs.inodes.length
    let fs1 : FS := { fs with inodes := fs.inodes ++ [DiskInode.initFile] }
    let root := fs1.getInode self
    let fileCount := root.size / DIRENT_SZ
    let newSize := ((fileCount + 1) * DIRENT_SZ) % U32_MOD
    let p := increaseSize fs1 root newSize
    let root2 := { p.2 with entries := p.2.entries.set fileCount ⟨name, newInodeId⟩ }
    some (newInodeId, p.1.setInode self root2)

/-- The process-wide hard-link table (`BTreeMap<usize, u32>`), modelled as
an association list with unique keys. -/
abbrev Tbl := List (Nat × Nat)

/-- `BTreeMap::get(&k).copied()`. -/
def tblGet (t : Tbl) (k : Nat) : Option Nat :=
  match t.find? (fun p => p.1 = k) with
  | some p => some p.2
  | none => none

/-- `BTreeMap::entry(k).and_modify(f).or_insert(v)`: apply `f` to the
stored value when the key is present, otherwise insert `v`. -/
def tblAndModifyOrInsert (t : Tbl) (k : Nat) (f : Nat → Nat) (v : Nat) : Tbl :=
  if (t.find? (fun p => p.1 = k)).isSome then
    t.map (fun p => if p.1 = k then (p.1, f p.2) else p)
  else t ++ [(k, v)]

/-- `Inode::hard_link` (vfs.rs lines 161-182): grow the directory by one
slot, write `{new_name, old_inode_id}` at the appended slot, then update
the table: absent → insert 2, present → increment. -/
def Inode.hardLink (fs : FS) (self : Nat) (newName : String) (oldInodeId : Nat)
    (count : Tbl) : FS × Tbl :=
  let root := fs.getInode self
  let fileCount := root.size / DIRENT_SZ
  let newSize := ((fileCount + 1) * DIRENT_SZ) % U32_MOD
  let p := increaseSize fs root newSize
  let root2 := { p.2 with entries := p.2.entries.set fileCount ⟨newName, oldInodeId⟩ }
  let count1 := tblAndModifyOrInsert count oldInodeId (fun x => (x + 1) % U32_MOD) 2
  (p.1.setInode self root2, count1)

/-- The slot scan of `Inode::unlink` (vfs.rs lines 187-205): overwrite the
first slot whose name equals `name` with the tombstone and stop; also
report that slot's former inode id.  (`u32` underflow of the later
decrement would panic in the source; the theorems below never decrement a
zero count.) -/
def unlinkEntries (name : String) : List DirEntry → List DirEntry × Option Nat
  | [] => ([], none)
  | e :: rest =>
    if e.name = name then (DirEntry.tomb :: rest, some e.inode_id)
    else
      let p := unlinkEntries name rest
      (e :: p.1, p.2)

/-- `Inode::unlink` (vfs.rs lines 185-208): tombstone the first matching
slot; on a match, `entry(old_id).and_modify(dec).or_insert(0)` on the
hard-link table. -/
def Inode.unlink (fs : FS) (self : Nat) (name : String) (count : Tbl) : FS × Tbl :=
  let root := fs.getInode self
  let p := unlinkEntries name root.entries
  let count1 :=
    match p.2 with
    | none => count
    | some oldId => tblAndModifyOrInsert count oldId (fun x => x - 1) 0
  (fs.setInode self { root with entries := p.1 }, count1)

/-- `Inode::ls` (vfs.rs lines 211-226): the name of every slot in order,
tombstones included. -/
def Inode.ls (fs : FS) (self : Nat) : List String :=
  (fs.getInode self).entries.map (fun e => e.name)

/-- `Inode::read_at` (vfs.rs lines 228-231): pass through to the disk
inode; the result is the byte list actually transferred. -/
def Inode.readAt (fs : FS) (self : Nat) (offset len : Nat) : List Nat :=
  (fs.getInode self).readBytes offset len

/-- `Inode::write_at` (vfs.rs lines 233-241): `increase_size` to
`(offset + buf.len()) as u32`, then pass the write through to the disk
inode; returns the new state and the byte count written. -/
def Inode.writeAt (fs : FS) (self : Nat) (offset : Nat) (buf : List Nat) : FS × Nat :=
  let d := fs.getInode self
  let p := increaseSize fs d ((offset + buf.length) % U32_MOD)
  let q := p.2.writeBytes offset buf
  (p.1.setInode self q.1, q.2)

/-- `Inode::clear` (vfs.rs lines 243-254): `clear_size`, assert the freed
count equals `total_blocks` of the old size (`none` models the fatal
assertion), then `dealloc_data` each freed block. -/
def Inode.clear (fs : FS) (self : Nat) : Option FS :=
  let d := fs.getInode self
  let size := d.size
  let p := d.clearSize
  if p.2.length = totalBlocks size then
    some { fs.setInode self p.1 with freedData := fs.freedData ++ p.2 }
  else none

/-- `nlink` (os/src/fs/inode.rs lines 171-178): the stored count, or 1
when the table has no entry for the inode id. -/
def nlink (count : Tbl) (inodeId : Nat) : Nat :=
  (tblGet count inodeId).getD 1

/-- The chunk loop of `OSInode::write` (os/src/fs/inode.rs lines
200-210): write each chunk at the cursor, abort (`none`) unless
`write_size == slice.len()`, else advance the cursor and the running
total. -/
def writeLoop (fs : FS) (ino : Nat) (offset total : Nat) :
    List (List Nat) → Option (FS × Nat × Nat)
  | [] => some (fs, offset, total)
  | buf :: rest =>
    let p := Inode.writeAt fs ino offset buf
    if p.2 = buf.length then writeLoop p.1 ino (offset + p.2) (total + p.2) rest
    else none

/-- `sys_unlinkat` (os/src/syscall/fs.rs lines 141-162): `find_inode`,
then `inode.clone().unwrap().inode_id()` — a panic (`none`) when the
lookup missed — then the (now unreachable) `is_none` check returning -1,
then `unlink`, and `clear` when the remaining link count is 0. -/
def sysUnlinkat (fs : FS) (count : Tbl) (name : String) : Option (Int × FS × Tbl) :=
  match Inode.find fs 0 name with
  | none => none
  | some inodeId =>
    let p := Inode.unlink fs 0 name count
    let c := nlink p.2 inodeId
    if c = 0 then
      match Inode.clear p.1 inodeId with
      | none => none
      | some fs2 => some (0, fs2, p.2)
    else some (0, p.1, p.2)

/-- The scan rule exactly as the specification words it (spec section
4.1): accept the first slot whose name matches AND whose inode id is not
the sentinel; used only to compare the spec's wording with the code's
`find`. -/
def findInodeIdSpec (name : String) : List DirEntry → Option Nat
  | [] => none
  | e :: rest =>
    if e.name = name ∧ e.inode_id ≠ U32_MAX then some e.inode_id
    else findInodeIdSpec name rest

/-! ## List and table helper lemmas -/

theorem getD_append_left {α : Type} (l1 l2 : List α) (i : Nat) (d : α)
    (h : i < l1.length) : (l1 ++ l2).getD i d = l1.getD i d := by
  induction l1 generalizing i with
  | nil => simp at h
  | cons a t ih =>
    cases i with
    | zero => rfl
    | succ n => simpa using ih n (by simpa using h)

theorem getD_set_self {α : Type} (l : List α) (i : Nat) (x d : α)
    (h : i < l.length) : (l.set i x).getD i d = x := by
  induction l generalizing i with
  | nil => simp at h
  | cons a t ih =>
    cases i with
    | zero => rfl
    | succ n => simpa using ih n (by simpa using h)

theorem getD_set_ne {α : Type} (l : List α) (i j : Nat) (x d : α)
    (h : i ≠ j) : (l.set i x).getD j d = l.getD j d := by
  induction l generalizing i j with
  | nil => rfl
  | cons a t ih =>
    cases i with
    | zero =>
      cases j with
      | zero => exact absurd rfl h
      | succ m => rfl
    | succ n =>
      cases j with
      | zero => rfl
      | succ m => simpa using ih n m (by omega)

theorem set_append_len {α : Type} (l : List α) (e x : α) :
    (l ++ [e]).set l.length x = l ++ [x] := by
  induction l with
  | nil => rfl
  | cons a t ih => simp [List.cons_append, List.set, ih]

theorem findInodeId_append_none (name : String) (l1 l2 : List DirEntry)
    (h : findInodeId name l1 = none) :
    findInodeId name (l1 ++ l2) = findInodeId name l2 := by
  induction l1 with
  | nil => rfl
  | cons e t ih =>
    by_cases he : e.name = name
    · simp only [findInodeId, if_pos he] at h
      simp at h
    · simp only [findInodeId, if_neg he] at h
      have hstep : findInodeId name (e :: (t ++ l2)) = findInodeId name (t ++ l2) := by
        simp only [findInodeId, if_neg he]
      rw [List.cons_append, hstep, ih h]

theorem unlinkEntries_append_none (name : String) (l1 l2 : List DirEntry)
    (h : findInodeId name l1 = none) :
    unlinkEntries name (l1 ++ l2) =
      (l1 ++ (unlinkEntries name l2).1, (unlinkEntries name l2).2) := by
  induction l1 with
  | nil => rfl
  | cons e t ih =>
    by_cases he : e.name = name
    · simp only [findInodeId, if_pos he] at h
      simp at h
    · simp only [findInodeId, if_neg he] at h
      have hstep : unlinkEntries name (e :: (t ++ l2)) =
          (e :: (unlinkEntries name (t ++ l2)).1, (unlinkEntries name (t ++ l2)).2) := by
        simp only [unlinkEntries, if_neg he]
      rw [List.cons_append, hstep, ih h]
      simp

theorem tblGet_cons_pos (p : Nat × Nat) (rest : Tbl) (k : Nat) (hk : p.1 = k) :
    tblGet (p :: rest) k = some p.2 := by
  unfold tblGet
  rw [List.find?_cons_of_pos _ (by simpa using hk)]

theorem tblGet_cons_neg (p : Nat × Nat) (rest : Tbl) (k : Nat) (hk : ¬ p.1 = k) :
    tblGet (p :: rest) k = tblGet rest k := by
  unfold tblGet
  rw [List.find?_cons_of_neg _ (by simpa using hk)]

theorem tblGet_append_absent (t : Tbl) (k v : Nat) (h : tblGet t k = none) :
    tblGet (t ++ [(k, v)]) k = some v := by
  induction t with
  | nil => exact tblGet_cons_pos (k, v) [] k rfl
  | cons p rest ih =>
    by_cases hk : p.1 = k
    · rw [tblGet_cons_pos p rest k hk] at h
      simp at h
    · rw [tblGet_cons_neg p rest k hk] at h
      rw [List.cons_append, tblGet_cons_neg p _ k hk]
      exact ih h

theorem tblGet_map_modify (t : Tbl) (k : Nat) (f : Nat → Nat) (w : Nat)
    (h : tblGet t k = some w) :
    tblGet (t.map (fun p => if p.1 = k then (p.1, f p.2) else p)) k = some (f w) := by
  induction t with
  | nil => simp [tblGet, List.find?] at h
  | cons p rest ih =>
    rw [List.map_cons]
    by_cases hk : p.1 = k
    · rw [tblGet_cons_pos p rest k hk] at h
      rw [if_pos hk, tblGet_cons_pos (p.1, f p.2) _ k hk]
      simp only [Option.some.injEq] at h
      rw [h]
    · rw [tblGet_cons_neg p rest k hk] at h
      rw [if_neg hk, tblGet_cons_neg p _ k hk]
      exact ih h

theorem tblFind_isSome_of_get (t : Tbl) (k w : Nat) (h : tblGet t k = some w) :
    (t.find? (fun p => p.1 = k)).isSome = true := by
  unfold tblGet at h
  cases hf : t.find? (fun p => p.1 = k) <;> simp [hf] at h ⊢

theorem tblFind_eq_none_of_get (t : Tbl) (k : Nat) (h : tblGet t k = none) :
    t.find? (fun p => p.1 = k) = none := by
  unfold tblGet at h
  cases hf : t.find? (fun p => p.1 = k) <;> simp [hf] at h ⊢

theorem tblAndModifyOrInsert_absent (t : Tbl) (k : Nat) (f : Nat → Nat) (v : Nat)
    (h : tblGet t k = none) :
    tblAndModifyOrInsert t k f v = t ++ [(k, v)] := by
  unfold tblAndModifyOrInsert
  rw [tblFind_eq_none_of_get t k h]
  rfl

theorem tblGet_andModify_present (t : Tbl) (k : Nat) (f : Nat → Nat) (v w : Nat)
    (h : tblGet t k = some w) :
    tblGet (tblAndModifyOrInsert t k f v) k = some (f w) := by
  unfold tblAndModifyOrInsert
  rw [if_pos (tblFind_isSome_of_get t k w h)]
  exact tblGet_map_modify t k f w h

theorem getD_append_len {α : Type} (l : List α) (x d : α) :
    (l ++ [x]).getD l.length d = x := by
  induction l with
  | nil => rfl
  | cons a t ih => exact ih

theorem size_dir (d : DiskInode) (h : d.ty = DiskInodeType.directory) :
    d.size = d.entries.length * DIRENT_SZ := by
  unfold DiskInode.size
  rw [h]

theorem extendTo_dir (d : DiskInode) (m : Nat) (bs : List Nat)
    (h : d.ty = DiskInodeType.directory) :
    d.extendTo ((d.entries.length + m) * DIRENT_SZ) bs =
      { d with entries := d.entries ++ List.replicate m DirEntry.blank,
               blocks := d.blocks ++ bs } := by
  obtain ⟨ty, b, E, bl⟩ := d
  simp only at h
  subst h
  unfold DiskInode.extendTo
  have h1 : (E.length + m) * DIRENT_SZ / DIRENT_SZ = E.length + m :=
    Nat.mul_div_cancel _ (by decide)
  simp [h1]

theorem increaseSize_dir (fs : FS) (d : DiskInode) (m : Nat)
    (h : d.ty = DiskInodeType.directory) :
    increaseSize fs d ((d.entries.length + m) * DIRENT_SZ) =
      ({ fs with nextData := fs.nextData + d.blocksNumNeeded ((d.entries.length + m) * DIRENT_SZ) },
       { d with entries := d.entries ++ List.replicate m DirEntry.blank,
                blocks := d.blocks ++
                  (List.range (d.blocksNumNeeded ((d.entries.length + m) * DIRENT_SZ))).map
                    (fs.nextData + ·) }) := by
  have hlt : ¬ ((d.entries.length + m) * DIRENT_SZ < d.size) := by
    rw [size_dir d h]
    exact Nat.not_lt.mpr (Nat.mul_le_mul_right _ (Nat.le_add_right _ _))
  show (if (d.entries.length + m) * DIRENT_SZ < d.size then (fs, d) else
      ((fs.allocData (d.blocksNumNeeded ((d.entries.length + m) * DIRENT_SZ))).2,
       d.extendTo ((d.entries.length + m) * DIRENT_SZ)
         (fs.allocData (d.blocksNumNeeded ((d.entries.length + m) * DIRENT_SZ))).1)) = _
  rw [if_neg hlt, extendTo_dir d m _ h]
  rfl

theorem create_spec (fs : FS) (self : Nat) (name : String)
    (hself : self < fs.inodes.length)
    (hdir : (fs.getInode self).ty = DiskInodeType.directory)
    (hfree : findInodeId name (fs.getInode self).entries = none)
    (hsz : ((fs.getInode self).entries.length + 1) * DIRENT_SZ < U32_MOD) :
    ∃ fs1, Inode.create fs self name = some (fs.inodes.length, fs1) ∧
      fs1.inodes.length = fs.inodes.length + 1 ∧
      (fs1.getInode self).ty = DiskInodeType.directory ∧
      (fs1.getInode self).entries =
        (fs.getInode self).entries ++ [⟨name, fs.inodes.length⟩] ∧
      fs1.getInode fs.inodes.length = DiskInode.initFile := by
  have hroot : FS.getInode { fs with inodes := fs.inodes ++ [DiskInode.initFile] } self
      = fs.getInode self := by
    unfold FS.getInode
    exact getD_append_left _ _ _ _ hself
  have hcount : (fs.getInode self).size / DIRENT_SZ = (fs.getInode self).entries.length := by
    rw [size_dir _ hdir]
    exact Nat.mul_div_cancel _ (by decide)
  have hmod : (((fs.getInode self).entries.length + 1) * DIRENT_SZ) % U32_MOD
      = ((fs.getInode self).entries.length + 1) * DIRENT_SZ := Nat.mod_eq_of_lt hsz
  refine ⟨⟨(fs.inodes ++ [DiskInode.initFile]).set self
              ({ fs.getInode self with
                  entries := (fs.getInode self).entries ++ [⟨name, fs.inodes.length⟩],
                  blocks := (fs.getInode self).blocks ++
                    (List.range ((fs.getInode self).blocksNumNeeded
                      (((fs.getInode self).entries.length + 1) * DIRENT_SZ))).map
                      (fs.nextData + ·) }),
          fs.nextData + (fs.getInode self).blocksNumNeeded
            (((fs.getInode self).entries.length + 1) * DIRENT_SZ),
          fs.freedData⟩, ?_, ?_, ?_, ?_, ?_⟩
  · unfold Inode.create
    rw [hfree]
    simp only [Option.isSome_none, Bool.false_eq_true, if_false, hroot, hcount, hmod,
      increaseSize_dir _ _ 1 hdir, List.replicate_one, set_append_len]
    rfl
  · simp [List.length_set, List.length_append]
  · unfold FS.getInode
    rw [getD_set_self]
    · exact hdir
    · simp only [List.length_set, List.length_append]
      omega
  · unfold FS.getInode
    rw [getD_set_self]
    · simp only [List.length_set, List.length_append]
      omega
  · unfold FS.getInode
    rw [getD_set_ne _ self fs.inodes.length _ _ (Nat.ne_of_lt hself)]
    exact getD_append_len _ _ _

theorem hardLink_spec (fs : FS) (self : Nat) (newName : String) (oldId : Nat) (count : Tbl)
    (hself : self < fs.inodes.length)
    (hdir : (fs.getInode self).ty = DiskInodeType.directory)
    (hsz : ((fs.getInode self).entries.length + 1) * DIRENT_SZ < U32_MOD) :
    (Inode.hardLink fs self newName oldId count).1.inodes.length = fs.inodes.length ∧
    ((Inode.hardLink fs self newName oldId count).1.getInode self).ty
      = DiskInodeType.directory ∧
    ((Inode.hardLink fs self newName oldId count).1.getInode self).entries
      = (fs.getInode self).entries ++ [⟨newName, oldId⟩] ∧
    (Inode.hardLink fs self newName oldId count).2
      = tblAndModifyOrInsert count oldId (fun x => (x + 1) % U32_MOD) 2 := by
  have hcount : (fs.getInode self).size / DIRENT_SZ = (fs.getInode self).entries.length := by
    rw [size_dir _ hdir]
    exact Nat.mul_div_cancel _ (by decide)
  have hmod : (((fs.getInode self).entries.length + 1) * DIRENT_SZ) % U32_MOD
      = ((fs.getInode self).entries.length + 1) * DIRENT_SZ := Nat.mod_eq_of_lt hsz
  have hlink : Inode.hardLink fs self newName oldId count =
      (⟨fs.inodes.set self
            ({ fs.getInode self with
                entries := (fs.getInode self).entries ++ [⟨newName, oldId⟩],
                blocks := (fs.getInode self).blocks ++
                  (List.range ((fs.getInode self).blocksNumNeeded
                    (((fs.getInode self).entries.length + 1) * DIRENT_SZ))).map
                    (fs.nextData + ·) }),
          fs.nextData + (fs.getInode self).blocksNumNeeded
            (((fs.getInode self).entries.length + 1) * DIRENT_SZ),
          fs.freedData⟩,
       tblAndModifyOrInsert count oldId (fun x => (x + 1) % U32_MOD) 2) := by
    unfold Inode.hardLink
    simp only [hcount, hmod, increaseSize_dir _ _ 1 hdir, List.replicate_one, set_append_len]
    rfl
  rw [hlink]
  unfold FS.getInode
  refine ⟨by simp [List.length_set], ?_, ?_, rfl⟩
  · rw [getD_set_self _ _ _ _ hself]
    exact hdir
  · rw [getD_set_self _ _ _ _ hself]

theorem unlink_spec (fs : FS) (self : Nat) (name : String) (count : Tbl)
    (pre : List DirEntry) (e : DirEntry) (post : List DirEntry)
    (hself : self < fs.inodes.length)
    (hentries : (fs.getInode self).entries = pre ++ e :: post)
    (hpre : findInodeId name pre = none)
    (hname : e.name = name) :
    ((Inode.unlink fs self name count).1.getInode self).entries
      = pre ++ DirEntry.tomb :: post ∧
    ((Inode.unlink fs self name count).1.getInode self).ty = (fs.getInode self).ty ∧
    (Inode.unlink fs self name count).1.inodes.length = fs.inodes.length ∧
    (Inode.unlink fs self name count).2
      = tblAndModifyOrInsert count e.inode_id (fun x => x - 1) 0 := by
  have hscan : unlinkEntries name (fs.getInode self).entries
      = (pre ++ DirEntry.tomb :: post, some e.inode_id) := by
    rw [hentries, unlinkEntries_append_none name pre _ hpre]
    have hhead : unlinkEntries name (e :: post) = (DirEntry.tomb :: post, some e.inode_id) := by
      simp only [unlinkEntries, if_pos hname]
    rw [hhead]
  have hunlink : Inode.unlink fs self name count =
      (FS.setInode fs self ({ fs.getInode self with entries := pre ++ DirEntry.tomb :: post }),
       tblAndModifyOrInsert count e.inode_id (fun x => x - 1) 0) := by
    unfold Inode.unlink
    simp only [hscan]
  rw [hunlink]
  unfold FS.setInode FS.getInode
  refine ⟨?_, ?_, by simp [List.length_set], rfl⟩
  · rw [getD_set_self _ _ _ _ hself]
  · rw [getD_set_self _ _ _ _ hself]

theorem find_after_tomb (fs : FS) (self : Nat) (name : String)
    (pre post : List DirEntry)
    (hE : (fs.getInode self).entries = pre ++ DirEntry.tomb :: post)
    (hpre : findInodeId name pre = none)
    (hpost : findInodeId name post = none) :
    Inode.find fs self name = none := by
  unfold Inode.find
  rw [hE, findInodeId_append_none name pre _ hpre]
  by_cases hname : DirEntry.tomb.name = name
  · have : findInodeId name (DirEntry.tomb :: post) = some U32_MAX := by
      simp only [findInodeId, if_pos hname]
      rfl
    rw [this]
    rfl
  · have : findInodeId name (DirEntry.tomb :: post) = findInodeId name post := by
      simp only [findInodeId, if_neg hname]
    rw [this, hpost]

theorem find_resolves (fs : FS) (self : Nat) (name : String)
    (pre : List DirEntry) (e : DirEntry) (post : List DirEntry)
    (hE : (fs.getInode self).entries = pre ++ e :: post)
    (hpre : findInodeId name pre = none)
    (hname : e.name = name)
    (hid : e.inode_id ≠ U32_MAX) :
    Inode.find fs self name = some e.inode_id := by
  unfold Inode.find
  rw [hE, findInodeId_append_none name pre _ hpre]
  have : findInodeId name (e :: post) = some e.inode_id := by
    simp only [findInodeId, if_pos hname]
  rw [this]
  simp [hid]

theorem findInodeId_singleton_ne (name : String) (e : DirEntry) (h : e.name ≠ name) :
    findInodeId name [e] = none := by
  simp [findInodeId, h]

/-- C1: Link accounting at the public interface.  From any state whose
root is a directory with no entry named "a" or "b" and whose hard-link
table has no entry for the next fresh inode id: `create("a")` yields a
handle with that id `id_of_a` and `nlink(id_of_a) = 1`; after
`hard_link("b", id_of_a)`, `find("b")` resolves to `id_of_a` and
`nlink(id_of_a) = 2`; after `unlink("a")`, `find("a")` is empty,
`nlink(id_of_a) = 1`, and `find("b")` still resolves to `id_of_a`. -/
theorem C1_link_accounting (fs : FS) (count : Tbl)
    (hroot : 0 < fs.inodes.length)
    (hdir : (fs.getInode 0).ty = DiskInodeType.directory)
    (ha : findInodeId "a" (fs.getInode 0).entries = none)
    (hb : findInodeId "b" (fs.getInode 0).entries = none)
    (hid : tblGet count fs.inodes.length = none)
    (hmax : fs.inodes.length ≠ U32_MAX)
    (hsz : ((fs.getInode 0).entries.length + 2) * DIRENT_SZ < U32_MOD) :
    ∃ fs1, Inode.create fs 0 "a" = some (fs.inodes.length, fs1) ∧
      nlink count fs.inodes.length = 1 ∧
      Inode.find (Inode.hardLink fs1 0 "b" fs.inodes.length count).1 0 "b"
        = some fs.inodes.length ∧
      nlink (Inode.hardLink fs1 0 "b" fs.inodes.length count).2 fs.inodes.length = 2 ∧
      Inode.find (Inode.unlink (Inode.hardLink fs1 0 "b" fs.inodes.length count).1 0 "a"
          (Inode.hardLink fs1 0 "b" fs.inodes.length count).2).1 0 "a" = none ∧
      nlink (Inode.unlink (Inode.hardLink fs1 0 "b" fs.inodes.length count).1 0 "a"
          (Inode.hardLink fs1 0 "b" fs.inodes.length count).2).2 fs.inodes.length = 1 ∧
      Inode.find (Inode.unlink (Inode.hardLink fs1 0 "b" fs.inodes.length count).1 0 "a"
          (Inode.hardLink fs1 0 "b" fs.inodes.length count).2).1 0 "b"
        = some fs.inodes.length := by
  have hsz1 : ((fs.getInode 0).entries.length + 1) * DIRENT_SZ < U32_MOD :=
    lt_of_le_of_lt (Nat.mul_le_mul_right _ (by omega)) hsz
  obtain ⟨fs1, hcreate, hlen1, hty1, hent1, _⟩ := create_spec fs 0 "a" hroot hdir ha hsz1
  have hself1 : 0 < fs1.inodes.length := by omega
  have hlen1e : (fs1.getInode 0).entries.length = (fs.getInode 0).entries.length + 1 := by
    rw [hent1]
    simp
  have hsz2 : ((fs1.getInode 0).entries.length + 1) * DIRENT_SZ < U32_MOD := by
    rw [hlen1e]
    exact lt_of_le_of_lt (Nat.mul_le_mul_right _ (by omega)) hsz
  obtain ⟨hlen2, hty2, hent2, htbl2⟩ :=
    hardLink_spec fs1 0 "b" fs.inodes.length count hself1 hty1 hsz2
  rw [hent1] at hent2
  have hself2 : 0 < (Inode.hardLink fs1 0 "b" fs.inodes.length count).1.inodes.length := by
    omega
  have hpreb : findInodeId "b"
      ((fs.getInode 0).entries ++ [⟨"a", fs.inodes.length⟩]) = none := by
    rw [findInodeId_append_none _ _ _ hb]
    exact findInodeId_singleton_ne _ _ (show ("a" : String) ≠ "b" by decide)
  have hfindb : Inode.find (Inode.hardLink fs1 0 "b" fs.inodes.length count).1 0 "b"
      = some fs.inodes.length := by
    refine find_resolves _ 0 "b" ((fs.getInode 0).entries ++ [⟨"a", fs.inodes.length⟩])
      ⟨"b", fs.inodes.length⟩ [] ?_ hpreb rfl hmax
    rw [hent2]
  have hcount2 : (Inode.hardLink fs1 0 "b" fs.inodes.length count).2
      = count ++ [(fs.inodes.length, 2)] := by
    rw [htbl2]
    exact tblAndModifyOrInsert_absent _ _ _ _ hid
  have hget2 : tblGet (Inode.hardLink fs1 0 "b" fs.inodes.length count).2 fs.inodes.length
      = some 2 := by
    rw [hcount2]
    exact tblGet_append_absent _ _ _ hid
  have hentassoc : ((Inode.hardLink fs1 0 "b" fs.inodes.length count).1.getInode 0).entries
      = (fs.getInode 0).entries ++
        (⟨"a", fs.inodes.length⟩ : DirEntry) :: [⟨"b", fs.inodes.length⟩] := by
    rw [hent2, List.append_assoc, List.singleton_append]
  obtain ⟨hent3, hty3, hlen3, htbl3⟩ :=
    unlink_spec (Inode.hardLink fs1 0 "b" fs.inodes.length count).1 0 "a"
      (Inode.hardLink fs1 0 "b" fs.inodes.length count).2
      (fs.getInode 0).entries ⟨"a", fs.inodes.length⟩ [⟨"b", fs.inodes.length⟩]
      hself2 hentassoc ha rfl
  have hfinda : Inode.find (Inode.unlink (Inode.hardLink fs1 0 "b" fs.inodes.length count).1
      0 "a" (Inode.hardLink fs1 0 "b" fs.inodes.length count).2).1 0 "a" = none := by
    refine find_after_tomb _ 0 "a" (fs.getInode 0).entries [⟨"b", fs.inodes.length⟩]
      hent3 ha (findInodeId_singleton_ne _ _ (show ("b" : String) ≠ "a" by decide))
  have hget3 : tblGet (Inode.unlink (Inode.hardLink fs1 0 "b" fs.inodes.length count).1
      0 "a" (Inode.hardLink fs1 0 "b" fs.inodes.length count).2).2 fs.inodes.length
      = some 1 := by
    rw [htbl3]
    exact tblGet_andModify_present _ _ _ _ 2 hget2
  have hent3b : ((Inode.unlink (Inode.hardLink fs1 0 "b" fs.inodes.length count).1
      0 "a" (Inode.hardLink fs1 0 "b" fs.inodes.length count).2).1.getInode 0).entries
      = ((fs.getInode 0).entries ++ [DirEntry.tomb]) ++
        (⟨"b", fs.inodes.length⟩ : DirEntry) :: [] := by
    rw [hent3, List.append_assoc, List.singleton_append]
  have hpretomb : findInodeId "b" ((fs.getInode 0).entries ++ [DirEntry.tomb]) = none := by
    rw [findInodeId_append_none _ _ _ hb]
    exact findInodeId_singleton_ne _ _ (show ("" : String) ≠ "b" by decide)
  have hfindb3 : Inode.find (Inode.unlink (Inode.hardLink fs1 0 "b" fs.inodes.length count).1
      0 "a" (Inode.hardLink fs1 0 "b" fs.inodes.length count).2).1 0 "b"
      = some fs.inodes.length := by
    exact find_resolves _ 0 "b" ((fs.getInode 0).entries ++ [DirEntry.tomb])
      ⟨"b", fs.inodes.length⟩ [] hent3b hpretomb rfl hmax
  refine ⟨fs1, hcreate, ?_, hfindb, ?_, hfinda, ?_, hfindb3⟩
  · unfold nlink
    rw [hid]
    rfl
  · unfold nlink
    rw [hget2]
    rfl
  · unfold nlink
    rw [hget3]
    rfl

theorem size_file (d : DiskInode) (h : d.ty = DiskInodeType.file) :
    d.size = d.bytes.length := by
  unfold DiskInode.size
  rw [h]

theorem extendTo_file (d : DiskInode) (newSize : Nat) (bs : List Nat)
    (h : d.ty = DiskInodeType.file) :
    d.extendTo newSize bs =
      { d with bytes := d.bytes ++ List.replicate (newSize - d.bytes.length) 0,
               blocks := d.blocks ++ bs } := by
  obtain ⟨ty, b, E, bl⟩ := d
  simp only at h
  subst h
  rfl

theorem increaseSize_file (fs : FS) (d : DiskInode) (newSize : Nat)
    (hty : d.ty = DiskInodeType.file) (hge : d.bytes.length ≤ newSize) :
    increaseSize fs d newSize =
      ({ fs with nextData := fs.nextData + d.blocksNumNeeded newSize },
       { d with bytes := d.bytes ++ List.replicate (newSize - d.bytes.length) 0,
                blocks := d.blocks ++ (List.range (d.blocksNumNeeded newSize)).map
                  (fs.nextData + ·) }) := by
  have hlt : ¬ (newSize < d.size) := by
    rw [size_file d hty]
    omega
  show (if newSize < d.size then (fs, d) else
      ((fs.allocData (d.blocksNumNeeded newSize)).2,
       d.extendTo newSize (fs.allocData (d.blocksNumNeeded newSize)).1)) = _
  rw [if_neg hlt, extendTo_file d _ _ hty]
  rfl

theorem writeBytes_eq (d : DiskInode) (offset : Nat) (buf : List Nat) :
    d.writeBytes offset buf =
      ({ d with bytes := d.bytes.take offset ++
            buf.take (min buf.length (d.bytes.length - offset)) ++
            d.bytes.drop (offset + min buf.length (d.bytes.length - offset)) },
       min buf.length (d.bytes.length - offset)) := rfl

theorem writeAt_fresh (fs : FS) (self : Nat) (buf : List Nat)
    (hself : self < fs.inodes.length)
    (hnew : fs.getInode self = DiskInode.initFile)
    (hbuf : buf.length < U32_MOD) :
    (Inode.writeAt fs self 0 buf).2 = buf.length ∧
    ((Inode.writeAt fs self 0 buf).1.getInode self).ty = DiskInodeType.file ∧
    ((Inode.writeAt fs self 0 buf).1.getInode self).bytes = buf := by
  have hwa : Inode.writeAt fs self 0 buf =
      ((increaseSize fs (fs.getInode self) ((0 + buf.length) % U32_MOD)).1.setInode self
        ((increaseSize fs (fs.getInode self) ((0 + buf.length) % U32_MOD)).2.writeBytes 0 buf).1,
       ((increaseSize fs (fs.getInode self) ((0 + buf.length) % U32_MOD)).2.writeBytes 0 buf).2) :=
    rfl
  have hmod : (0 + buf.length) % U32_MOD = buf.length := by
    rw [Nat.zero_add]
    exact Nat.mod_eq_of_lt hbuf
  rw [hwa, hmod, hnew]
  have hi := increaseSize_file fs DiskInode.initFile buf.length rfl (Nat.zero_le _)
  rw [hi, writeBytes_eq]
  have hbytes1 : (({ DiskInode.initFile with
      bytes := DiskInode.initFile.bytes ++
        List.replicate (buf.length - DiskInode.initFile.bytes.length) 0,
      blocks := DiskInode.initFile.blocks ++
        (List.range (DiskInode.initFile.blocksNumNeeded buf.length)).map
          (fs.nextData + ·) } : DiskInode)).bytes = List.replicate buf.length 0 := by
    simp [DiskInode.initFile]
  rw [hbytes1]
  have hmin : min buf.length ((List.replicate buf.length (0 : Nat)).length - 0)
      = buf.length := by
    simp
  rw [hmin]
  refine ⟨rfl, ?_, ?_⟩
  · unfold FS.setInode FS.getInode
    rw [getD_set_self]
    · rfl
    · exact hself
  · unfold FS.setInode FS.getInode
    rw [getD_set_self]
    · simp [List.take_length]
    · exact hself

/-- A one-inode filesystem: inode 0 is an empty root directory. -/
def rootOnly : FS := ⟨[⟨DiskInodeType.directory, [], [], []⟩], 100, []⟩

/-- A filesystem whose root directory holds a single tombstoned slot that
still carries the name "x" (reachable only as a synthetic state; the real
tombstone blanks the name — used to exercise the sentinel guard). -/
def tombNamed : FS := ⟨[⟨DiskInodeType.directory, [], [⟨"x", U32_MAX⟩], []⟩], 0, []⟩

/-- C1 witness: the link-accounting scenario run on the concrete
one-inode filesystem with an empty root directory and empty table. -/
theorem C1_link_accounting_witness :
    ∃ fs1, Inode.create rootOnly 0 "a" = some (rootOnly.inodes.length, fs1) ∧
      nlink [] rootOnly.inodes.length = 1 ∧
      Inode.find (Inode.hardLink fs1 0 "b" rootOnly.inodes.length []).1 0 "b"
        = some rootOnly.inodes.length ∧
      nlink (Inode.hardLink fs1 0 "b" rootOnly.inodes.length []).2 rootOnly.inodes.length
        = 2 ∧
      Inode.find (Inode.unlink (Inode.hardLink fs1 0 "b" rootOnly.inodes.length []).1 0 "a"
          (Inode.hardLink fs1 0 "b" rootOnly.inodes.length []).2).1 0 "a" = none ∧
      nlink (Inode.unlink (Inode.hardLink fs1 0 "b" rootOnly.inodes.length []).1 0 "a"
          (Inode.hardLink fs1 0 "b" rootOnly.inodes.length []).2).2 rootOnly.inodes.length
        = 1 ∧
      Inode.find (Inode.unlink (Inode.hardLink fs1 0 "b" rootOnly.inodes.length []).1 0 "a"
          (Inode.hardLink fs1 0 "b" rootOnly.inodes.length []).2).1 0 "b"
        = some rootOnly.inodes.length :=
  C1_link_accounting rootOnly [] (by decide) rfl rfl rfl rfl (by decide) (by decide)

/-- C2: Round trip.  For every name with no matching slot in the (root)
directory, `create(name)` succeeds; then for every byte sequence `buf`
(shorter than `u32` wrap, spanning any number of blocks),
`write_at(0, buf)` reports `buf.length` bytes written and `read_at(0)` of
the same length returns exactly the bytes of `buf`. -/
theorem C2_round_trip (fs : FS) (self : Nat) (name : String) (buf : List Nat)
    (hself : self < fs.inodes.length)
    (hdir : (fs.getInode self).ty = DiskInodeType.directory)
    (hfree : findInodeId name (fs.getInode self).entries = none)
    (hsz : ((fs.getInode self).entries.length + 1) * DIRENT_SZ < U32_MOD)
    (hbuf : buf.length < U32_MOD) :
    ∃ fs1, Inode.create fs self name = some (fs.inodes.length, fs1) ∧
      (Inode.writeAt fs1 fs.inodes.length 0 buf).2 = buf.length ∧
      Inode.readAt (Inode.writeAt fs1 fs.inodes.length 0 buf).1 fs.inodes.length 0 buf.length
        = buf := by
  obtain ⟨fs1, hcreate, hlen1, _, _, hnew⟩ := create_spec fs self name hself hdir hfree hsz
  have hselfL : fs.inodes.length < fs1.inodes.length := by omega
  obtain ⟨hn, _, hbytes⟩ := writeAt_fresh fs1 fs.inodes.length buf hselfL hnew hbuf
  refine ⟨fs1, hcreate, hn, ?_⟩
  unfold Inode.readAt DiskInode.readBytes
  rw [hbytes]
  simp [List.take_length]

/-- C2 witness: round trip of a concrete 1025-byte sequence — spanning
three 512-byte blocks — through a file freshly created in the root. -/
theorem C2_round_trip_witness :
    ∃ fs1, Inode.create rootOnly 0 "f" = some (rootOnly.inodes.length, fs1) ∧
      (Inode.writeAt fs1 rootOnly.inodes.length 0 (List.replicate 1025 7)).2
        = (List.replicate 1025 7).length ∧
      Inode.readAt (Inode.writeAt fs1 rootOnly.inodes.length 0 (List.replicate 1025 7)).1
        rootOnly.inodes.length 0 (List.replicate 1025 7).length = List.replicate 1025 7 :=
  C2_round_trip rootOnly 0 "f" (List.replicate 1025 7) (by decide) rfl rfl (by decide)
    (by rw [List.length_replicate]; decide)

/-- C5: Creation guard.  `create(name)` returns empty whenever the scan
finds any slot whose name matches — the sentinel included, so tombstoned
slots are never reused; and creating twice in a row yields a handle then
an empty result, with `find(name)` still resolving afterwards. -/
theorem C5_creation_guard :
    (∀ (fs : FS) (self : Nat) (name : String) (id : Nat),
      (fs.getInode self).ty = DiskInodeType.directory →
      findInodeId name (fs.getInode self).entries = some id →
      Inode.create fs self name = none) ∧
    (∀ (fs : FS) (self : Nat) (name : String),
      self < fs.inodes.length →
      (fs.getInode self).ty = DiskInodeType.directory →
      findInodeId name (fs.getInode self).entries = none →
      ((fs.getInode self).entries.length + 1) * DIRENT_SZ < U32_MOD →
      fs.inodes.length ≠ U32_MAX →
      ∃ fs1, Inode.create fs self name = some (fs.inodes.length, fs1) ∧
        Inode.create fs1 self name = none ∧
        Inode.find fs1 self name = some fs.inodes.length) := by
  have guard : ∀ (fs : FS) (self : Nat) (name : String) (id : Nat),
      findInodeId name (fs.getInode self).entries = some id →
      Inode.create fs self name = none := by
    intro fs self name id hfound
    unfold Inode.create
    rw [hfound]
    rfl
  refine ⟨fun fs self name id _ h => guard fs self name id h, ?_⟩
  intro fs self name hself hdir hfree hsz hmax
  obtain ⟨fs1, hcreate, hlen1, hty1, hent1, _⟩ := create_spec fs self name hself hdir hfree hsz
  have hfound : findInodeId name (fs1.getInode self).entries = some fs.inodes.length := by
    rw [hent1, findInodeId_append_none _ _ _ hfree]
    simp [findInodeId]
  refine ⟨fs1, hcreate, guard fs1 self name _ hfound, ?_⟩
  exact find_resolves fs1 self name (fs.getInode self).entries ⟨name, fs.inodes.length⟩ []
    (by rw [hent1]) hfree rfl hmax

/-- C5 witness: the guard fires on a concrete sentinel-guarded matching
slot, and the double-create scenario runs on the empty root. -/
theorem C5_creation_guard_witness :
    Inode.create tombNamed 0 "x" = none ∧
    (∃ fs1, Inode.create rootOnly 0 "g" = some (rootOnly.inodes.length, fs1) ∧
      Inode.create fs1 0 "g" = none ∧
      Inode.find fs1 0 "g" = some rootOnly.inodes.length) :=
  ⟨C5_creation_guard.1 tombNamed 0 "x" U32_MAX rfl (by decide),
   C5_creation_guard.2 rootOnly 0 "g" (by decide) rfl rfl (by decide) (by decide)⟩

/-- C6: Growth no-op.  `increase_size(new_size)` leaves the disk inode
and the whole filesystem state (in particular the allocator) unchanged
whenever the requested size is not larger than the current size — this
path never shrinks the inode. -/
theorem C6_growth_noop (fs : FS) (d : DiskInode) (newSize : Nat)
    (hle : newSize ≤ d.size) :
    increaseSize fs d newSize = (fs, d) := by
  rcases Nat.lt_or_ge newSize d.size with hlt | hge
  · unfold increaseSize
    rw [if_pos hlt]
  · have heq : newSize = d.size := Nat.le_antisymm hle hge
    subst heq
    have hbn : d.blocksNumNeeded d.size = 0 := Nat.sub_self _
    show (if d.size < d.size then (fs, d) else
        ((fs.allocData (d.blocksNumNeeded d.size)).2,
         d.extendTo d.size (fs.allocData (d.blocksNumNeeded d.size)).1)) = (fs, d)
    rw [if_neg (Nat.lt_irrefl _), hbn]
    have hfs : (fs.allocData 0).2 = fs := by
      unfold FS.allocData
      simp
    have hnil : (fs.allocData 0).1 = [] := rfl
    rw [hfs, hnil]
    obtain ⟨ty, b, E, bl⟩ := d
    cases ty
    · simp [DiskInode.extendTo, DiskInode.size]
    · simp [DiskInode.extendTo, DiskInode.size,
        Nat.mul_div_cancel _ (show 0 < DIRENT_SZ by decide)]

/-- C6 witness: growing a concrete 3-byte file to 2 bytes is the
identity on both the inode and the filesystem state. -/
theorem C6_growth_noop_witness :
    2 ≤ (⟨DiskInodeType.file, [9, 9, 9], [], [101]⟩ : DiskInode).size ∧
    increaseSize rootOnly ⟨DiskInodeType.file, [9, 9, 9], [], [101]⟩ 2
      = (rootOnly, ⟨DiskInodeType.file, [9, 9, 9], [], [101]⟩) :=
  ⟨by decide, C6_growth_noop rootOnly ⟨DiskInodeType.file, [9, 9, 9], [], [101]⟩ 2 (by decide)⟩

/-- A root directory holding two slots both named "x": the vfs
`hard_link` API appends entries without any duplicate-name check, so such
states arise from calling `hard_link("x", _)` on a directory that already
contains an "x" entry. -/
def dupNamed : FS := ⟨[⟨DiskInodeType.directory, [], [⟨"x", 3⟩, ⟨"x", 4⟩], []⟩], 0, []⟩

/-- C3 counterexample: the claim quantifies over every directory state
containing an entry for `name` and demands `find(name)` be empty after
`unlink(name)`; on a directory with two slots named "x", `unlink`
tombstones only the first and `find "x"` still resolves to id 4. -/
theorem C3_tombstone_counterexample :
    Inode.find (Inode.unlink dupNamed 0 "x" []).1 0 "x" = some 4 := by decide

/-- C3 (amended): for every directory state in which exactly one slot is
named `name`, `unlink(name)` overwrites that slot in place with the
tombstone `{name = "", inode_id = u32::MAX}`, `find(name)` then returns
empty, and `ls()` still enumerates one entry (the empty name) at that
slot position, so the number of names `ls()` returns is unchanged. -/
theorem C3_tombstone_nonresolution (fs : FS) (self : Nat) (name : String) (count : Tbl)
    (pre : List DirEntry) (e : DirEntry) (post : List DirEntry)
    (hself : self < fs.inodes.length)
    (hentries : (fs.getInode self).entries = pre ++ e :: post)
    (hpre : findInodeId name pre = none)
    (hname : e.name = name)
    (hpost : findInodeId name post = none) :
    ((Inode.unlink fs self name count).1.getInode self).entries
      = pre ++ DirEntry.tomb :: post ∧
    Inode.find (Inode.unlink fs self name count).1 self name = none ∧
    Inode.ls (Inode.unlink fs self name count).1 self
      = pre.map (fun x => x.name) ++ "" :: post.map (fun x => x.name) ∧
    (Inode.ls (Inode.unlink fs self name count).1 self).length
      = (Inode.ls fs self).length := by
  obtain ⟨hent, hty, hlen, htbl⟩ :=
    unlink_spec fs self name count pre e post hself hentries hpre hname
  refine ⟨hent, ?_, ?_, ?_⟩
  · exact find_after_tomb _ self name pre post hent hpre hpost
  · unfold Inode.ls
    rw [hent]
    simp [DirEntry.tomb]
  · unfold Inode.ls
    rw [hent, hentries]
    simp

/-- A root directory with exactly one entry, named "a". -/
def oneNamed : FS := ⟨[⟨DiskInodeType.directory, [], [⟨"a", 3⟩], []⟩], 0, []⟩

/-- C3 witness: the amended tombstone property on the concrete one-entry
root directory. -/
theorem C3_tombstone_nonresolution_witness :
    ((Inode.unlink oneNamed 0 "a" []).1.getInode 0).entries
      = [] ++ DirEntry.tomb :: [] ∧
    Inode.find (Inode.unlink oneNamed 0 "a" []).1 0 "a" = none ∧
    Inode.ls (Inode.unlink oneNamed 0 "a" []).1 0
      = ([] : List DirEntry).map (fun x => x.name) ++
        "" :: ([] : List DirEntry).map (fun x => x.name) ∧
    (Inode.ls (Inode.unlink oneNamed 0 "a" []).1 0).length
      = (Inode.ls oneNamed 0).length :=
  C3_tombstone_nonresolution oneNamed 0 "a" [] [] ⟨"a", 3⟩ [] (by decide) rfl rfl rfl rfl

/-- A root directory where a sentinel-guarded slot named "" precedes a
live slot also named "" (id 7): left by `unlink` of a name after an
earlier `create("")`/`hard_link("", _)` appended a real ""-named entry. -/
def shadowed : FS := ⟨[⟨DiskInodeType.directory, [], [⟨"", U32_MAX⟩, ⟨"", 7⟩], []⟩], 0, []⟩

/-- C4 counterexample: the claim says `find` returns a handle from the
first slot whose name matches AND whose id is not the sentinel — here
slot 1, `{"", 7}` — but the code stops at the sentinel-guarded matching
slot 0 and returns empty. -/
theorem C4_find_counterexample :
    findInodeIdSpec "" (shadowed.getInode 0).entries = some 7 ∧
    Inode.find shadowed 0 "" = none := by decide

/-- C4 (amended): `find` scans the `size/DIRENT_SZ` slots sequentially
and the FIRST slot whose name matches decides the result — its id when it
is not the sentinel, empty when it is, so a sentinel-guarded matching
slot ends the scan even when a later non-sentinel slot also matches; when
no slot's name matches at all, the result is empty. -/
theorem C4_find_scan_rule :
    (∀ (fs : FS) (self : Nat) (name : String) (pre : List DirEntry) (e : DirEntry)
        (post : List DirEntry),
      (fs.getInode self).ty = DiskInodeType.directory →
      (fs.getInode self).entries = pre ++ e :: post →
      findInodeId name pre = none →
      e.name = name →
      Inode.find fs self name
        = if e.inode_id = U32_MAX then none else some e.inode_id) ∧
    (∀ (fs : FS) (self : Nat) (name : String),
      (fs.getInode self).ty = DiskInodeType.directory →
      findInodeId name (fs.getInode self).entries = none →
      Inode.find fs self name = none) := by
  constructor
  · intro fs self name pre e post _ hE hpre hname
    unfold Inode.find
    rw [hE, findInodeId_append_none _ _ _ hpre]
    have hhead : findInodeId name (e :: post) = some e.inode_id := by
      simp only [findInodeId, if_pos hname]
    rw [hhead]
  · intro fs self name _ hnone
    unfold Inode.find
    rw [hnone]

/-- C4 witness: the amended scan rule applied to the concrete shadowed
directory (matching sentinel slot first) and to a miss on the empty
root. -/
theorem C4_find_scan_rule_witness :
    Inode.find shadowed 0 ""
      = (if (⟨"", U32_MAX⟩ : DirEntry).inode_id = U32_MAX then none
         else some (⟨"", U32_MAX⟩ : DirEntry).inode_id) ∧
    Inode.find rootOnly 0 "z" = none :=
  ⟨C4_find_scan_rule.1 shadowed 0 "" [] ⟨"", U32_MAX⟩ [⟨"", 7⟩] rfl rfl rfl rfl,
   C4_find_scan_rule.2 rootOnly 0 "z" rfl rfl⟩

/-- C7: Clear semantics.  On a file inode whose block list matches
`total_blocks` of its size (the invariant the disk-inode layer
maintains), `clear()` succeeds, appends exactly those block ids — i.e.
`total_blocks(pre-clear size)` of them — to the allocator's freed list,
keeps every inode record in place (the inode's own record block is not
freed), and a subsequent `read_at(0)` transfers zero bytes; when the
freed-block count mismatches, `clear()` is the fatal assertion (`none`),
not a recoverable error. -/
theorem C7_clear_semantics :
    (∀ (fs : FS) (self : Nat),
      self < fs.inodes.length →
      (fs.getInode self).ty = DiskInodeType.file →
      (fs.getInode self).blocks.length = totalBlocks (fs.getInode self).size →
      ∃ fs1, Inode.clear fs self = some fs1 ∧
        fs1.freedData = fs.freedData ++ (fs.getInode self).blocks ∧
        fs1.freedData.length
          = fs.freedData.length + totalBlocks (fs.getInode self).size ∧
        fs1.inodes.length = fs.inodes.length ∧
        (fs1.getInode self).ty = (fs.getInode self).ty ∧
        (∀ len, Inode.readAt fs1 self 0 len = [])) ∧
    (∀ (fs : FS) (self : Nat),
      (fs.getInode self).blocks.length ≠ totalBlocks (fs.getInode self).size →
      Inode.clear fs self = none) := by
  have hclear : ∀ (fs : FS) (self : Nat), Inode.clear fs self =
      (if (fs.getInode self).blocks.length = totalBlocks (fs.getInode self).size then
        some { fs.setInode self
            ({ fs.getInode self with bytes := [], entries := [], blocks := [] }) with
          freedData := fs.freedData ++ (fs.getInode self).blocks }
      else none) := fun fs self => rfl
  constructor
  · intro fs self hself hty hinv
    rw [hclear fs self, if_pos hinv]
    refine ⟨_, rfl, rfl, ?_, ?_, ?_, ?_⟩
    · rw [List.length_append, hinv]
    · unfold FS.setInode
      simp [List.length_set]
    · unfold FS.setInode FS.getInode
      rw [getD_set_self _ _ _ _ hself]
    · intro len
      unfold Inode.readAt DiskInode.readBytes FS.setInode FS.getInode
      rw [getD_set_self _ _ _ _ hself]
      simp
  · intro fs self hne
    rw [hclear fs self, if_neg hne]

/-- A two-inode filesystem: root directory with one entry "f" pointing to
inode 1, a 3-byte file backed by data block 101. -/
def fileFS : FS := ⟨[⟨DiskInodeType.directory, [], [⟨"f", 1⟩], []⟩,
                     ⟨DiskInodeType.file, [1, 2, 3], [], [101]⟩], 200, []⟩

/-- A file inode whose block list violates the size invariant (1 byte of
content but no backing block recorded). -/
def badBlocksFS : FS := ⟨[⟨DiskInodeType.file, [1], [], []⟩], 0, []⟩

/-- C7 witness: clearing the concrete 3-byte file frees exactly its one
block, and the invariant-violating state makes `clear` abort. -/
theorem C7_clear_semantics_witness :
    (∃ fs1, Inode.clear fileFS 1 = some fs1 ∧
      fs1.freedData = fileFS.freedData ++ (fileFS.getInode 1).blocks ∧
      fs1.freedData.length
        = fileFS.freedData.length + totalBlocks (fileFS.getInode 1).size ∧
      fs1.inodes.length = fileFS.inodes.length ∧
      (fs1.getInode 1).ty = (fileFS.getInode 1).ty ∧
      (∀ len, Inode.readAt fs1 1 0 len = [])) ∧
    Inode.clear badBlocksFS 0 = none :=
  ⟨C7_clear_semantics.1 fileFS 1 (by decide) rfl (by decide),
   C7_clear_semantics.2 badBlocksFS 0 (by decide)⟩

/-- C8: Divergent absent-entry conventions.  The `nlink` query returns
the stored count, or 1 when the table has no entry; `unlink`, removing an
entry whose inode id has no table entry (never hard-linked), inserts the
baseline 0; hence after such an unlink the table maps that inode id to 0
and `nlink` of it returns 0, not 1. -/
theorem C8_absent_conventions :
    (∀ (t : Tbl) (k : Nat), tblGet t k = none → nlink t k = 1) ∧
    (∀ (t : Tbl) (k v : Nat), tblGet t k = some v → nlink t k = v) ∧
    (∀ (fs : FS) (self : Nat) (name : String) (count : Tbl)
        (pre : List DirEntry) (e : DirEntry) (post : List DirEntry),
      (fs.getInode self).entries = pre ++ e :: post →
      findInodeId name pre = none →
      e.name = name →
      tblGet count e.inode_id = none →
      tblGet (Inode.unlink fs self name count).2 e.inode_id = some 0 ∧
      nlink (Inode.unlink fs self name count).2 e.inode_id = 0) := by
  refine ⟨?_, ?_, ?_⟩
  · intro t k h
    unfold nlink
    rw [h]
    rfl
  · intro t k v h
    unfold nlink
    rw [h]
    rfl
  · intro fs self name count pre e post hE hpre hname habsent
    have hscan : unlinkEntries name (fs.getInode self).entries
        = (pre ++ DirEntry.tomb :: post, some e.inode_id) := by
      rw [hE, unlinkEntries_append_none name pre _ hpre]
      have hhead : unlinkEntries name (e :: post)
          = (DirEntry.tomb :: post, some e.inode_id) := by
        simp only [unlinkEntries, if_pos hname]
      rw [hhead]
    have htbl : (Inode.unlink fs self name count).2
        = tblAndModifyOrInsert count e.inode_id (fun x => x - 1) 0 := by
      unfold Inode.unlink
      simp only [hscan]
    rw [htbl, tblAndModifyOrInsert_absent _ _ _ _ habsent]
    constructor
    · exact tblGet_append_absent _ _ _ habsent
    · unfold nlink
      rw [tblGet_append_absent _ _ _ habsent]
      rfl

/-- C8 witness: the absent-entry query convention, the stored-count
query, and the unlink-of-a-never-linked-name scenario on the concrete
one-entry root. -/
theorem C8_absent_conventions_witness :
    nlink [] 5 = 1 ∧ nlink [(5, 7)] 5 = 7 ∧
    (tblGet (Inode.unlink oneNamed 0 "a" []).2 3 = some 0 ∧
     nlink (Inode.unlink oneNamed 0 "a" []).2 3 = 0) :=
  ⟨C8_absent_conventions.1 [] 5 rfl,
   C8_absent_conventions.2.1 [(5, 7)] 5 7 rfl,
   C8_absent_conventions.2.2 oneNamed 0 "a" [] [] ⟨"a", 3⟩ [] rfl rfl rfl rfl⟩

theorem writeBytes_full (d : DiskInode) (offset : Nat) (buf : List Nat)
    (h : offset + buf.length ≤ d.bytes.length) :
    (d.writeBytes offset buf).2 = buf.length ∧ (d.writeBytes offset buf).1.ty = d.ty := by
  rw [writeBytes_eq]
  have hmin : min buf.length (d.bytes.length - offset) = buf.length :=
    Nat.min_eq_left (by omega)
  rw [hmin]
  exact ⟨rfl, rfl⟩

theorem increaseSize_file_props (fs : FS) (d : DiskInode) (m : Nat)
    (hty : d.ty = DiskInodeType.file) :
    (increaseSize fs d m).2.ty = DiskInodeType.file ∧
    (increaseSize fs d m).1.inodes = fs.inodes ∧
    m ≤ (increaseSize fs d m).2.bytes.length := by
  rcases Nat.lt_or_ge m d.size with hlt | hge
  · have hi : increaseSize fs d m = (fs, d) := by
      unfold increaseSize
      rw [if_pos hlt]
    rw [hi]
    rw [size_file _ hty] at hlt
    refine ⟨hty, rfl, ?_⟩
    show m ≤ d.bytes.length
    omega
  · have hgeb : d.bytes.length ≤ m := by
      rw [size_file _ hty] at hge
      omega
    have hi := increaseSize_file fs d m hty hgeb
    rw [hi]
    refine ⟨hty, rfl, ?_⟩
    show m ≤ (d.bytes ++ List.replicate (m - d.bytes.length) 0).length
    simp only [List.length_append, List.length_replicate]
    omega

theorem getInode_setInode_self (fs : FS) (i : Nat) (d : DiskInode)
    (h : i < fs.inodes.length) : (fs.setInode i d).getInode i = d := by
  unfold FS.setInode FS.getInode
  exact getD_set_self _ _ _ _ h

theorem setInode_inodes_length (fs : FS) (i : Nat) (d : DiskInode) :
    (fs.setInode i d).inodes.length = fs.inodes.length := by
  unfold FS.setInode
  simp [List.length_set]

theorem writeAt_file_spec (fs : FS) (self : Nat) (offset : Nat) (buf : List Nat)
    (hself : self < fs.inodes.length)
    (hty : (fs.getInode self).ty = DiskInodeType.file)
    (hmod : offset + buf.length < U32_MOD) :
    (Inode.writeAt fs self offset buf).2 = buf.length ∧
    (Inode.writeAt fs self offset buf).1.inodes.length = fs.inodes.length ∧
    ((Inode.writeAt fs self offset buf).1.getInode self).ty = DiskInodeType.file := by
  have hwa : Inode.writeAt fs self offset buf =
      ((increaseSize fs (fs.getInode self) ((offset + buf.length) % U32_MOD)).1.setInode self
        ((increaseSize fs (fs.getInode self) ((offset + buf.length) % U32_MOD)).2.writeBytes
          offset buf).1,
       ((increaseSize fs (fs.getInode self) ((offset + buf.length) % U32_MOD)).2.writeBytes
          offset buf).2) := rfl
  rw [hwa, Nat.mod_eq_of_lt hmod]
  obtain ⟨h1, h2, h3⟩ := increaseSize_file_props fs (fs.getInode self) (offset + buf.length) hty
  obtain ⟨h4, h5⟩ := writeBytes_full
    (increaseSize fs (fs.getInode self) (offset + buf.length)).2 offset buf (by omega)
  have hself2 : self < (increaseSize fs (fs.getInode self) (offset + buf.length)).1.inodes.length := by
    rw [h2]
    exact hself
  refine ⟨h4, ?_, ?_⟩
  · rw [setInode_inodes_length, h2]
  · rw [getInode_setInode_self _ _ _ hself2, h5, h1]

/-- C9: Write short-fall is fatal and unreachable.  The open-file write
loop aborts (`none`, modelling the `assert_eq!`) the moment an underlying
`write_at` returns fewer bytes than the chunk length, rather than
returning an error value; and on a file inode, since `write_at` first
grows the inode to `offset + chunk length` (as long as that fits in
`u32`), every chunk is written in full: the loop always succeeds, having
advanced the cursor and the running total by the bytes written of every
chunk. -/
theorem C9_write_shortfall :
    (∀ (fs : FS) (ino offset total : Nat) (buf : List Nat) (rest : List (List Nat)),
      (Inode.writeAt fs ino offset buf).2 ≠ buf.length →
      writeLoop fs ino offset total (buf :: rest) = none) ∧
    (∀ (bufs : List (List Nat)) (fs : FS) (ino offset total : Nat),
      ino < fs.inodes.length →
      (fs.getInode ino).ty = DiskInodeType.file →
      offset + (bufs.map List.length).sum < U32_MOD →
      ∃ fs1, writeLoop fs ino offset total bufs
        = some (fs1, offset + (bufs.map List.length).sum,
                total + (bufs.map List.length).sum)) := by
  constructor
  · intro fs ino offset total buf rest hne
    show (if (Inode.writeAt fs ino offset buf).2 = buf.length then
        writeLoop (Inode.writeAt fs ino offset buf).1 ino
          (offset + (Inode.writeAt fs ino offset buf).2)
          (total + (Inode.writeAt fs ino offset buf).2) rest
      else none) = none
    rw [if_neg hne]
  · intro bufs
    induction bufs with
    | nil =>
      intro fs ino offset total _ _ _
      exact ⟨fs, by simp [writeLoop]⟩
    | cons b rest ih =>
      intro fs ino offset total hino hty hmod
      have hsum : (List.map List.length (b :: rest)).sum
          = b.length + (List.map List.length rest).sum := by
        simp
      have hmodb : offset + b.length < U32_MOD := by
        rw [hsum] at hmod
        omega
      obtain ⟨h4, hlen, hty2⟩ := writeAt_file_spec fs ino offset b hino hty hmodb
      have hstep : writeLoop fs ino offset total (b :: rest)
          = writeLoop (Inode.writeAt fs ino offset b).1 ino
              (offset + (Inode.writeAt fs ino offset b).2)
              (total + (Inode.writeAt fs ino offset b).2) rest := by
        show (if (Inode.writeAt fs ino offset b).2 = b.length then
            writeLoop (Inode.writeAt fs ino offset b).1 ino
              (offset + (Inode.writeAt fs ino offset b).2)
              (total + (Inode.writeAt fs ino offset b).2) rest
          else none) = _
        rw [if_pos h4]
      obtain ⟨fs1, heq⟩ := ih (Inode.writeAt fs ino offset b).1 ino
        (offset + b.length) (total + b.length) (by omega) hty2
        (by rw [hsum] at hmod; omega)
      refine ⟨fs1, ?_⟩
      rw [hstep, h4, heq, hsum]
      have e1 : offset + b.length + (List.map List.length rest).sum
          = offset + (b.length + (List.map List.length rest).sum) := by omega
      have e2 : total + b.length + (List.map List.length rest).sum
          = total + (b.length + (List.map List.length rest).sum) := by omega
      rw [e1, e2]

/-- C9 witness: a chunk written past the `u32` wrap point is short and
aborts the loop; two in-range chunks written to the concrete 3-byte file
succeed, advancing cursor and total by 3. -/
theorem C9_write_shortfall_witness :
    writeLoop fileFS 1 U32_MOD 0 [[5]] = none ∧
    (∃ fs1, writeLoop fileFS 1 0 0 [[4, 5], [6]]
      = some (fs1, 0 + (List.map List.length [[4, 5], [6]]).sum,
              0 + (List.map List.length [[4, 5], [6]]).sum)) :=
  ⟨C9_write_shortfall.1 fileFS 1 U32_MOD 0 [5] [] (by decide),
   C9_write_shortfall.2 [[4, 5], [6]] fileFS 1 0 0 (by decide) rfl (by decide)⟩

/-- C10: `sys_unlinkat` unwraps the result of `find_inode(name)` before
its `is_none` check runs, so a name that does not resolve panics
(`none`) instead of reaching the `-1` branch; consequently no execution
of `sys_unlinkat` ever returns `-1` — every `some` result carries 0. -/
theorem C10_unlinkat_panics :
    (∀ (fs : FS) (count : Tbl) (name : String),
      Inode.find fs 0 name = none → sysUnlinkat fs count name = none) ∧
    (∀ (fs : FS) (count : Tbl) (name : String) (r : Int × FS × Tbl),
      sysUnlinkat fs count name = some r → r.1 = 0) := by
  constructor
  · intro fs count name hfind
    unfold sysUnlinkat
    rw [hfind]
  · intro fs count name r h
    cases hfind : Inode.find fs 0 name with
    | none =>
      unfold sysUnlinkat at h
      rw [hfind] at h
      exact absurd h (by simp)
    | some id =>
      have hbody : sysUnlinkat fs count name =
          (if nlink (Inode.unlink fs 0 name count).2 id = 0 then
            match Inode.clear (Inode.unlink fs 0 name count).1 id with
            | none => none
            | some fs2 => some ((0 : Int), fs2, (Inode.unlink fs 0 name count).2)
          else some ((0 : Int), (Inode.unlink fs 0 name count).1,
            (Inode.unlink fs 0 name count).2)) := by
        unfold sysUnlinkat
        rw [hfind]
      rw [hbody] at h
      split at h
      · cases hclear : Inode.clear (Inode.unlink fs 0 name count).1 id with
        | none =>
          rw [hclear] at h
          exact absurd h (by simp)
        | some fs2 =>
          rw [hclear] at h
          have := Option.some.inj h
          rw [← this]
      · have := Option.some.inj h
        rw [← this]

/-- C10 witness: a missing name panics on the concrete empty root, and
the successful unlink of "f" on the two-inode filesystem returns 0. -/
theorem C10_unlinkat_panics_witness :
    sysUnlinkat rootOnly [] "z" = none ∧
    (((0 : Int), (⟨[⟨DiskInodeType.directory, [], [DirEntry.tomb], []⟩,
        ⟨DiskInodeType.file, [], [], []⟩], 200, [101]⟩ : FS),
      ([(1, 0)] : Tbl)) : Int × FS × Tbl).1 = 0 :=
  ⟨C10_unlinkat_panics.1 rootOnly [] "z" rfl,
   C10_unlinkat_panics.2 fileFS [] "f"
     ((0 : Int), (⟨[⟨DiskInodeType.directory, [], [DirEntry.tomb], []⟩,
        ⟨DiskInodeType.file, [], [], []⟩], 200, [101]⟩ : FS), ([(1, 0)] : Tbl))
     (by decide)⟩
